import Mathlib

/-!
Verification development for the `mc` mirror core: the adaptive parallel
task scheduler (`ParallelManager`), the mirror orchestrator
(`deltaSourceTarget`) and the content difference engine.

Definitions are shallow embeddings of the Go source; ambient inputs
(process memory statistics, sampled byte counters, clock ticks) become
explicit parameters.
-/

namespace Mc

/-! ## Parallel manager (src/unnamed/part_003) -/

/-- Maximum number of parallel workers (`maxParallelWorkers = 128`). -/
def maxParallelWorkers : Nat := 128

/-- A task, as in the Go `task` struct: an action with a barrier flag and
the total upload size.  The function payload `fn` is irrelevant to the
admission logic and is omitted. -/
structure MTask where
  barrier : Bool
  uploadSize : Nat
deriving DecidableEq, Repr

/-- Embedding of `estimateNeededMemoryForUpload` (the closure inside
`enoughMemForUpload`): the estimate is the full size, capped at three
fixed 128 MiB part buffers once `size / partSize >= 3`. -/
def estimateNeededMemoryForUpload (size : Nat) : Nat :=
  let partSize : Nat := 128 * 1024 * 1024
  if size / partSize ≥ 3 then 3 * partSize else size

/-- Embedding of `ParallelManager.enoughMemForUpload`.  The manager's
memory budget `maxMem` and the current process allocation `alloc`
(read from `runtime.ReadMemStats` in Go) are explicit arguments. -/
def enoughMemForUpload (maxMem uploadSize alloc : Nat) : Bool :=
  if uploadSize = 0 ∨ maxMem = 0 then true
  else decide (estimateNeededMemoryForUpload uploadSize + alloc < maxMem)

/-- Embedding of the admission-class decision in
`ParallelManager.doQueueTask`: when there is not enough memory for the
upload, the task is promoted to the barrier class before being queued. -/
def doQueueTask (maxMem alloc : Nat) (t : MTask) : MTask :=
  if !enoughMemForUpload maxMem t.uploadSize alloc then
    { t with barrier := true }
  else t

/-- Embedding of the memory-budget computation in `newParallelManager`:
when `mem.VirtualMemory()` fails the budget stays `0`, otherwise it is
80% of available memory (the Go code computes `float64(Available)*0.8`
and truncates to `uint64`; exact rational arithmetic `a * 8 / 10` on a
multiple of 10 agrees with it, and the claims only depend on the failure
case being `0`). -/
def computeMaxMem (memAvailable : Option Nat) : Nat :=
  match memAvailable with
  | none => 0
  | some a => a * 8 / 10

/-- Embedding of `ParallelManager.addWorker` acting on the worker count
`workersNum`: if the count has reached `maxParallelWorkers` nothing
happens, otherwise the count is incremented (the spawned goroutine does
not change the count again). -/
def addWorkerCount (n : Nat) : Nat :=
  if n ≥ maxParallelWorkers then n else n + 1

/-- Monitor state of `ParallelManager.monitorProgress`: the previous
byte sample `prev`, the best observed per-tick delta `maxBandwidth`, the
stall counter `retry`, the current worker count, and whether the monitor
goroutine has returned. -/
structure MonitorState where
  prev : Int
  maxBandwidth : Int
  retry : Nat
  workers : Nat
  stopped : Bool
deriving DecidableEq, Repr

/-- Spawning one batch of workers: the `for i := 0; i < defaultWorkerFactor`
loop of `monitorProgress`, calling `addWorker` `factor` times. -/
def addWorkerBatch (factor : Nat) (n : Nat) : Nat :=
  addWorkerCount^[factor] n

/-- Embedding of one `ticker.C` iteration of `monitorProgress`.
`sentBytes` is the value read from the shared atomic counter, `factor`
is `defaultWorkerFactor` (the number of processing units).  The Go code
computes `bandwidth = sentBytes - prevSentBytes`; if
`bandwidth <= maxBandwidth` it increments `retry` and returns (stopping
the monitor) once `retry > 2`, otherwise it resets `retry` and records
the new best delta; every iteration that does not return then spawns
one batch of workers. -/
def monitorTick (factor : Nat) (s : MonitorState) (sentBytes : Int) : MonitorState :=
  if s.stopped then s
  else
    let bandwidth := sentBytes - s.prev
    if bandwidth ≤ s.maxBandwidth then
      if s.retry + 1 > 2 then
        { s with prev := sentBytes, retry := s.retry + 1, stopped := true }
      else
        { s with prev := sentBytes, retry := s.retry + 1,
                 workers := addWorkerBatch factor s.workers }
    else
      { s with prev := sentBytes, retry := 0, maxBandwidth := bandwidth,
               workers := addWorkerBatch factor s.workers }

/-! ## Mirror orchestrator (src/unnamed/part_002, `deltaSourceTarget`) -/

/-- The classification tags of a diff message (`differInNone`,
`differInType`, `differInSize`, `differInMetadata`,
`differInAASourceMTime`, `differInFirst`, `differInSecond`), plus the
zero value `differInUnknown` used for unclassified messages. -/
inductive DiffType where
  | differInNone
  | differInType
  | differInSize
  | differInMetadata
  | differInAASourceMTime
  | differInFirst
  | differInSecond
  | differInUnknown
deriving DecidableEq, Repr

/-- The part of `ClientContent` the orchestrator constructs or forwards:
its URL rendered as a string. -/
structure ClientContent where
  URL : String
deriving DecidableEq, Repr

/-- The error values `deltaSourceTarget` can place in a `URLs` message:
a forwarded listing error, `errInvalidTarget`, `errOverWriteNotAllowed`
or `errUnrecognizedDiffType`. -/
inductive MirrorErr where
  | forwarded (tag : String)
  | errInvalidTarget (url : String)
  | errOverWriteNotAllowed (url : String)
  | errUnrecognizedDiffType (d : DiffType)
deriving DecidableEq, Repr

/-- The `URLs` struct as emitted by `deltaSourceTarget`: optional fields
model Go's nil/zero values (`ErrorCond`'s zero value `differInUnknown`
is modelled as `none` when the field is not assigned). -/
structure URLs where
  SourceAlias : String
  SourceContent : Option ClientContent
  TargetAlias : String
  TargetContent : Option ClientContent
  Error : Option MirrorErr
  ErrorCond : Option DiffType
deriving DecidableEq, Repr

/-- One message of the `objectDifference` channel, as consumed by
`deltaSourceTarget`: the two URLs, the classification, the two optional
contents and an optional listing error. -/
structure DiffMessage where
  FirstURL : String
  SecondURL : String
  Diff : DiffType
  firstContent : Option ClientContent
  secondContent : Option ClientContent
  Error : Option String
deriving DecidableEq, Repr

/-- The fields of the Go `mirrorOptions` struct used by
`deltaSourceTarget`. -/
structure MirrorOpts where
  isFake : Bool
  isOverwrite : Bool
  activeActive : Bool
  isRemove : Bool
  excludeOptions : List String
deriving DecidableEq, Repr

/-- Embedding of `deepMatchRune` from `minio/pkg/wildcard` (the glob
matcher behind `wildcard.Match`, with `simple = false`): `*` matches any
sequence of characters, `?` any one character, anything else itself. -/
def deepMatchRune : List Char → List Char → Bool
  | str, [] => str.isEmpty
  | str, p :: ps =>
    if p = '*' then
      deepMatchRune str ps ||
        (match str with
         | [] => false
         | _ :: s2 => deepMatchRune s2 (p :: ps))
    else if p = '?' then
      match str with
      | [] => false
      | _ :: s2 => deepMatchRune s2 ps
    else
      match str with
      | [] => false
      | c :: s2 => c = p && deepMatchRune s2 ps
termination_by str pat => str.length + pat.length

/-- Embedding of `wildcard.Match(pattern, name)`: empty pattern matches
only the empty name, the pattern `*` matches everything, otherwise the
rune matcher decides. -/
def wildcardMatch (pattern name : String) : Bool :=
  if pattern = "" then name == pattern
  else if pattern = "*" then true
  else deepMatchRune name.toList pattern.toList

/-- Embedding of `matchExcludeOptions` (src/unnamed/part_002 lines
95-102): true when some exclude pattern matches the suffix. -/
def matchExcludeOptions (excludeOptions : List String) (srcSuffix : String) : Bool :=
  excludeOptions.any (fun pattern => wildcardMatch pattern srcSuffix)

/-- Embedding of Go's `strings.TrimPrefix`: drop the leading occurrence
of `p` from `s`, or return `s` unchanged. -/
def trimPfx (s p : String) : String :=
  if p.isPrefixOf s then s.drop p.length else s

/-- Modelled from the spec: the helper `urlJoinPath` is not part of the
source under verification (only its caller `deltaSourceTarget` is).
Per the spec the Copy task's target path is the target root URL joined
with the source-key suffix; `deltaSourceTarget` ensures the root ends
with its separator, so the join is concatenation. -/
def urlJoinPath (url1 url2 : String) : String := url1 ++ url2

/-- Helper building a `URLs` error message with no contents. -/
def mkErrorURLs (e : MirrorErr) (cond : Option DiffType) : URLs :=
  { SourceAlias := "", SourceContent := none, TargetAlias := "",
    TargetContent := none, Error := some e, ErrorCond := cond }

/-- Embedding of one iteration of the event loop in `deltaSourceTarget`
(src/unnamed/part_002 lines 134-205): the list of `URLs` messages sent
to `URLsCh` for one `diffMsg`.  `sourceURL` and `targetURL` are the
normalized roots (trailing separator already appended). -/
def processDiffMsg (opts : MirrorOpts) (sourceAlias sourceURL targetAlias targetURL : String)
    (diffMsg : DiffMessage) : List URLs :=
  match diffMsg.Error with
  | some e => [mkErrorURLs (.forwarded e) (some .differInUnknown)]
  | none =>
    let srcSuffix := trimPfx diffMsg.FirstURL sourceURL
    if matchExcludeOptions opts.excludeOptions srcSuffix then []
    else
      let tgtSuffix := trimPfx diffMsg.SecondURL targetURL
      if matchExcludeOptions opts.excludeOptions tgtSuffix then []
      else
        match diffMsg.Diff with
        | .differInNone => []
        | .differInType => [mkErrorURLs (.errInvalidTarget diffMsg.SecondURL) none]
        | .differInSize | .differInMetadata | .differInAASourceMTime =>
          if !opts.isOverwrite && !opts.isFake && !opts.activeActive then
            [mkErrorURLs (.errOverWriteNotAllowed diffMsg.SecondURL) (some diffMsg.Diff)]
          else
            let sourceSuffix := trimPfx diffMsg.FirstURL sourceURL
            let targetPath := urlJoinPath targetURL sourceSuffix
            [{ SourceAlias := sourceAlias, SourceContent := diffMsg.firstContent,
               TargetAlias := targetAlias, TargetContent := some { URL := targetPath },
               Error := none, ErrorCond := none }]
        | .differInFirst =>
          let sourceSuffix := trimPfx diffMsg.FirstURL sourceURL
          let targetPath := urlJoinPath targetURL sourceSuffix
          [{ SourceAlias := sourceAlias, SourceContent := diffMsg.firstContent,
             TargetAlias := targetAlias, TargetContent := some { URL := targetPath },
             Error := none, ErrorCond := none }]
        | .differInSecond =>
          if !opts.isRemove && !opts.isFake then []
          else
            [{ SourceAlias := "", SourceContent := none, TargetAlias := targetAlias,
               TargetContent := diffMsg.secondContent, Error := none, ErrorCond := none }]
        | .differInUnknown =>
          [mkErrorURLs (.errUnrecognizedDiffType diffMsg.Diff) (some diffMsg.Diff)]

/-- Modelled from the spec: the consumer (`mirror-main`, outside the
source under verification) treats a `URLs` message with a source entry
and a target as a Copy task. -/
def isCopyTask (u : URLs) : Bool :=
  u.Error.isNone && u.SourceContent.isSome && u.TargetContent.isSome

/-- Modelled from the spec: a `URLs` message with only target content is
a Remove task. -/
def isRemoveTask (u : URLs) : Bool :=
  u.Error.isNone && u.SourceContent.isNone && u.TargetContent.isSome

/-- A `URLs` message carrying an error is an error result. -/
def isErrorResult (u : URLs) : Bool :=
  u.Error.isSome

/-! ## Content difference engine -/

/-- Modelled from the spec: a `ListingEntry` of the Content Difference
Engine (the engine itself, `objectDifference`, is not part of the
source under verification; only its caller `deltaSourceTarget` is).
The entry carries the relative key plus the attributes the
classification compares: entry kind, size, checksum/etag, user
metadata and last-modified timestamp. -/
structure OEntry where
  key : String
  isDir : Bool
  size : Nat
  etag : String
  metadata : List (String × String)
  mtime : Nat
deriving DecidableEq, Repr

/-- Modelled from the spec: the `DiffEvent` tagged variant.  Listing
errors are surfaced separately by the reading process and do not occur
inside an error-free listing, so they are not part of the merge model. -/
inductive DiffEvent where
  | identical (s t : OEntry)
  | typeMismatch (s t : OEntry)
  | sizeMismatch (s t : OEntry)
  | metadataMismatch (s t : OEntry)
  | timestampConflict (s t : OEntry)
  | onlyInSource (s : OEntry)
  | onlyInTarget (t : OEntry)
deriving DecidableEq, Repr

/-- The originating key of a diff event. -/
def eventKey : DiffEvent → String
  | .identical s _ => s.key
  | .typeMismatch s _ => s.key
  | .sizeMismatch s _ => s.key
  | .metadataMismatch s _ => s.key
  | .timestampConflict s _ => s.key
  | .onlyInSource s => s.key
  | .onlyInTarget t => t.key

/-- Whether the event is an `OnlyInSource` event. -/
def isOnlyInSource : DiffEvent → Bool
  | .onlyInSource _ => true
  | _ => false

/-- Whether the event is an `OnlyInTarget` event. -/
def isOnlyInTarget : DiffEvent → Bool
  | .onlyInTarget _ => true
  | _ => false

/-- Whether the event is a comparison event (a key present on both
sides: Identical or one of the mismatch/conflict classifications). -/
def isCompareEvent (e : DiffEvent) : Bool :=
  !isOnlyInSource e && !isOnlyInTarget e

/-- Modelled from the spec: classification of two entries at the same
key, comparing kind, size, checksum, metadata and timestamp in turn. -/
def compareEntries (s t : OEntry) : DiffEvent :=
  if s.isDir ≠ t.isDir then .typeMismatch s t
  else if s.size ≠ t.size then .sizeMismatch s t
  else if s.etag ≠ t.etag then .metadataMismatch s t
  else if s.metadata ≠ t.metadata then .metadataMismatch s t
  else if s.mtime ≠ t.mtime then .timestampConflict s t
  else .identical s t

/-- Modelled from the spec: the synchronized merge of `objectDifference`
over the two ascending listings.  While both sides have entries the
current keys are compared: the smaller key is emitted as an OnlyIn*
event and its cursor advanced; equal keys produce one comparison event
and advance both cursors; an exhausted side flushes the remainder of
the other in order. -/
def objectDifference : List OEntry → List OEntry → List DiffEvent
  | [], [] => []
  | [], t :: ts => .onlyInTarget t :: objectDifference [] ts
  | s :: ss, [] => .onlyInSource s :: objectDifference ss []
  | s :: ss, t :: ts =>
    if s.key < t.key then
      .onlyInSource s :: objectDifference ss (t :: ts)
    else if t.key < s.key then
      .onlyInTarget t :: objectDifference (s :: ss) ts
    else
      compareEntries s t :: objectDifference ss ts
termination_by l1 l2 => l1.length + l2.length

/-! ## Admission gate (src/unnamed/part_003, `barrierSync` RWMutex) -/

/-- Lifecycle phase of a task with respect to the admission gate:
`queued` before `doQueueTask` acquires its hold, `held` once the hold is
acquired (the task waits in `queueCh`), `executing` while a worker runs
it, `done` after the worker released the hold. -/
inductive Phase where
  | queued
  | held
  | executing
  | done
deriving DecidableEq, Repr

/-- Whether a task in this phase holds the gate (`barrierSync`): the
hold is acquired by the producer at queueing time and released by the
worker at completion time, so it spans `held` and `executing`. -/
def holdsGate : Phase → Bool
  | .held => true
  | .executing => true
  | _ => false

/-- Transition relation of the admission gate, embedding `doQueueTask`
(acquire: `Lock` for a barrier task, `RLock` otherwise) and the worker
loop of `addWorker` (execute, then `Unlock`/`RUnlock`).  Go's
`sync.RWMutex` grants `RLock` only while no writer holds the lock, and
grants `Lock` only when no holder of either kind remains.  Tasks are
indexed by `Nat`; `barrier` gives each task's admission class. -/
inductive GateStep (barrier : Nat → Bool) : (Nat → Phase) → (Nat → Phase) → Prop where
  | acquireShared (s : Nat → Phase) (i : Nat)
      (hq : s i = .queued) (hb : barrier i = false)
      (hw : ∀ j, holdsGate (s j) = true → barrier j = false) :
      GateStep barrier s (Function.update s i .held)
  | acquireExclusive (s : Nat → Phase) (i : Nat)
      (hq : s i = .queued) (hb : barrier i = true)
      (hw : ∀ j, holdsGate (s j) = false) :
      GateStep barrier s (Function.update s i .held)
  | startExec (s : Nat → Phase) (i : Nat) (hh : s i = .held) :
      GateStep barrier s (Function.update s i .executing)
  | finishExec (s : Nat → Phase) (i : Nat) (he : s i = .executing) :
      GateStep barrier s (Function.update s i .done)

/-- Initial state of a run: every task still queued. -/
def initGate : Nat → Phase := fun _ => .queued

/-- States reachable in one run of the `ParallelManager`. -/
def GateReachable (barrier : Nat → Bool) (s : Nat → Phase) : Prop :=
  Relation.ReflTransGen (GateStep barrier) initGate s

/-! ## Theorems about the parallel manager -/

theorem addWorkerCount_le (n : Nat) : n ≤ addWorkerCount n := by
  unfold addWorkerCount
  split
  · exact Nat.le_refl n
  · exact Nat.le_succ n

theorem addWorkerCount_bounded (n : Nat) (h : n ≤ maxParallelWorkers) :
    addWorkerCount n ≤ maxParallelWorkers := by
  unfold addWorkerCount
  split
  · exact h
  · next hlt => exact Nat.lt_of_not_le (fun hc => hlt hc)

/-- C8: starting from the zero worker count of `newParallelManager`,
any number of `addWorker` calls leaves the worker count monotonically
non-decreasing and never above `maxParallelWorkers = 128`. -/
theorem worker_count_monotone_bounded (k : Nat) :
    addWorkerCount^[k] 0 ≤ addWorkerCount^[k + 1] 0
  ∧ addWorkerCount^[k] 0 ≤ maxParallelWorkers := by
  constructor
  · rw [Function.iterate_succ_apply']
    exact addWorkerCount_le _
  · induction k with
    | zero => simp [maxParallelWorkers]
    | succ n ih =>
      rw [Function.iterate_succ_apply']
      exact addWorkerCount_bounded _ ih

/-- C7: a task with positive upload size, under a non-zero budget, whose
estimated memory plus the current allocation is not strictly below the
budget, is queued with the barrier class regardless of its original
class; and the estimate is the full size capped at three 128 MiB part
buffers once the size reaches three parts. -/
theorem memory_exceeded_promotes_barrier (maxMem alloc : Nat) (t : MTask)
    (hs : 0 < t.uploadSize) (hm : maxMem ≠ 0)
    (hover : maxMem ≤ estimateNeededMemoryForUpload t.uploadSize + alloc) :
    (doQueueTask maxMem alloc t).barrier = true
  ∧ (∀ sz : Nat, estimateNeededMemoryForUpload sz =
      if 3 * (128 * 1024 * 1024) ≤ sz then 3 * (128 * 1024 * 1024) else sz) := by
  constructor
  · have he : enoughMemForUpload maxMem t.uploadSize alloc = false := by
      unfold enoughMemForUpload
      rw [if_neg]
      · simp only [decide_eq_false_iff_not, not_lt]
        exact hover
      · push_neg
        exact ⟨Nat.pos_iff_ne_zero.mp hs, hm⟩
    unfold doQueueTask
    rw [he]
    simp
  · intro sz
    have h3 : (3 ≤ sz / (128 * 1024 * 1024)) ↔ (3 * (128 * 1024 * 1024) ≤ sz) :=
      Nat.le_div_iff_mul_le (by norm_num)
    simp only [estimateNeededMemoryForUpload, ge_iff_le, h3]

/-- Witness for C7 at budget 50, allocation 0 and a 100-byte non-barrier
task. -/
theorem memory_exceeded_promotes_barrier_witness :
    (0 < (⟨false, 100⟩ : MTask).uploadSize
      ∧ (50 : Nat) ≠ 0
      ∧ 50 ≤ estimateNeededMemoryForUpload (⟨false, 100⟩ : MTask).uploadSize + 0)
  ∧ ((doQueueTask 50 0 ⟨false, 100⟩).barrier = true
      ∧ (∀ sz : Nat, estimateNeededMemoryForUpload sz =
          if 3 * (128 * 1024 * 1024) ≤ sz then 3 * (128 * 1024 * 1024) else sz)) :=
  ⟨⟨by decide, by decide, by decide⟩,
   memory_exceeded_promotes_barrier 50 0 ⟨false, 100⟩ (by decide) (by decide) (by decide)⟩

/-- C10: a zero upload size or a zero memory budget (the budget
`newParallelManager` computes when memory statistics are unavailable)
makes `enoughMemForUpload` return true, so `doQueueTask` leaves the
task's admission class exactly as requested. -/
theorem zero_size_or_budget_admits_unchanged (maxMem alloc : Nat) (t : MTask)
    (h : t.uploadSize = 0 ∨ maxMem = 0) :
    enoughMemForUpload maxMem t.uploadSize alloc = true
  ∧ doQueueTask maxMem alloc t = t
  ∧ computeMaxMem none = 0 := by
  have he : enoughMemForUpload maxMem t.uploadSize alloc = true := by
    unfold enoughMemForUpload
    rw [if_pos h]
  refine ⟨he, ?_, rfl⟩
  unfold doQueueTask
  rw [he]
  simp

/-- Witness for C10 with a zero-size barrier-less task under budget 7. -/
theorem zero_size_or_budget_admits_unchanged_witness :
    ((⟨true, 0⟩ : MTask).uploadSize = 0 ∨ (7 : Nat) = 0)
  ∧ (enoughMemForUpload 7 (⟨true, 0⟩ : MTask).uploadSize 3 = true
      ∧ doQueueTask 7 3 ⟨true, 0⟩ = ⟨true, 0⟩
      ∧ computeMaxMem none = 0) :=
  ⟨Or.inl rfl, zero_size_or_budget_admits_unchanged 7 3 ⟨true, 0⟩ (Or.inl rfl)⟩

/-- Concrete monitor state refuting C9 as stated: the best observed
delta is 10, the new delta is 5, the stall counter is 0 and there are 4
workers. -/
def cexMonState : MonitorState :=
  { prev := 0, maxBandwidth := 10, retry := 0, workers := 4, stopped := false }

/-- C9 counterexample: on a tick whose delta (5) is strictly lower than
the best delta observed so far (10), the monitor increments the stall
counter but still spawns a batch of workers, while the claim says it
spawns none. -/
theorem monitor_stall_spawns_counterexample :
    ((5 : Int) - cexMonState.prev < cexMonState.maxBandwidth)
  ∧ (monitorTick 4 cexMonState 5).retry = cexMonState.retry + 1
  ∧ ¬ (monitorTick 4 cexMonState 5).workers = cexMonState.workers := by
  decide

/-- C9 as amended: on each tick of a live monitor, the previous sample
is replaced; a delta strictly above the best observed so far resets the
stall counter and records the new best, any other delta increments the
stall counter; the monitor stops permanently exactly when a
non-improving tick pushes the counter above 2; and every tick that does
not stop the monitor (improving or not) spawns one batch of workers of
size `defaultWorkerFactor`.  A stopped monitor never changes state
again. -/
theorem monitor_tick_behavior (f : Nat) (s : MonitorState) (b : Int)
    (h : s.stopped = false) :
    (monitorTick f s b).prev = b
  ∧ (monitorTick f s b).retry = (if b - s.prev ≤ s.maxBandwidth then s.retry + 1 else 0)
  ∧ (monitorTick f s b).stopped =
      (decide (b - s.prev ≤ s.maxBandwidth) && decide (2 < s.retry + 1))
  ∧ (monitorTick f s b).workers =
      (if (monitorTick f s b).stopped = true then s.workers else addWorkerBatch f s.workers)
  ∧ (monitorTick f s b).maxBandwidth =
      (if b - s.prev ≤ s.maxBandwidth then s.maxBandwidth else b - s.prev)
  ∧ (∀ s2 : MonitorState, s2.stopped = true → monitorTick f s2 b = s2) := by
  unfold monitorTick
  rw [h]
  refine ⟨?_, ?_, ?_, ?_, ?_, ?_⟩ <;>
    first
      | (intro s2 h2; rw [h2]; simp)
      | (simp only [Bool.false_eq_true, if_false]
         split <;> (try split) <;> simp_all)

/-- Witness for C9's amended theorem at the counterexample state. -/
theorem monitor_tick_behavior_witness :
    cexMonState.stopped = false
  ∧ ((monitorTick 4 cexMonState 5).prev = 5
      ∧ (monitorTick 4 cexMonState 5).retry =
          (if (5 : Int) - cexMonState.prev ≤ cexMonState.maxBandwidth then cexMonState.retry + 1 else 0)
      ∧ (monitorTick 4 cexMonState 5).stopped =
          (decide ((5 : Int) - cexMonState.prev ≤ cexMonState.maxBandwidth) && decide (2 < cexMonState.retry + 1))
      ∧ (monitorTick 4 cexMonState 5).workers =
          (if (monitorTick 4 cexMonState 5).stopped = true then cexMonState.workers
           else addWorkerBatch 4 cexMonState.workers)
      ∧ (monitorTick 4 cexMonState 5).maxBandwidth =
          (if (5 : Int) - cexMonState.prev ≤ cexMonState.maxBandwidth then cexMonState.maxBandwidth
           else (5 : Int) - cexMonState.prev)
      ∧ (∀ s2 : MonitorState, s2.stopped = true → monitorTick 4 s2 5 = s2)) :=
  ⟨rfl, monitor_tick_behavior 4 cexMonState 5 rfl⟩

/-! ## Theorems about the mirror orchestrator -/

/-- Options refuting C2 as stated: overwrite and dry-run unset, but
active-active set. -/
def cexOverwriteOpts : MirrorOpts :=
  { isFake := false, isOverwrite := false, activeActive := true,
    isRemove := false, excludeOptions := [] }

/-- A SizeMismatch diff message at key `a`. -/
def cexSizeMsg : DiffMessage :=
  { FirstURL := "s/a", SecondURL := "t/a", Diff := .differInSize,
    firstContent := some { URL := "s/a" }, secondContent := some { URL := "t/a" },
    Error := none }

/-- C2 counterexample: with overwrite unset and dry-run unset but
active-active set, a SizeMismatch event produces a Copy task and no
error at all, contradicting the claim as stated. -/
theorem overwrite_unset_counterexample :
    cexOverwriteOpts.isOverwrite = false
  ∧ cexOverwriteOpts.isFake = false
  ∧ cexSizeMsg.Diff = DiffType.differInSize
  ∧ cexSizeMsg.Error = none
  ∧ (∀ u ∈ processDiffMsg cexOverwriteOpts "src" "s/" "tgt" "t/" cexSizeMsg,
        isErrorResult u = false)
  ∧ (∃ u ∈ processDiffMsg cexOverwriteOpts "src" "s/" "tgt" "t/" cexSizeMsg,
        isCopyTask u = true) := by
  decide

/-- C2 as amended: for a SizeMismatch, MetadataMismatch or
TimestampConflict event that no exclude pattern drops, when overwrite,
dry-run and active-active are all unset, `deltaSourceTarget` emits
exactly the overwrite-not-allowed error result and never a Copy task. -/
theorem overwrite_unset_error_result (opts : MirrorOpts) (sa su ta tu : String)
    (d : DiffMessage)
    (hE : d.Error = none)
    (hd : d.Diff = .differInSize ∨ d.Diff = .differInMetadata ∨ d.Diff = .differInAASourceMTime)
    (ho : opts.isOverwrite = false) (hf : opts.isFake = false) (ha : opts.activeActive = false)
    (hs : matchExcludeOptions opts.excludeOptions (trimPfx d.FirstURL su) = false)
    (ht : matchExcludeOptions opts.excludeOptions (trimPfx d.SecondURL tu) = false) :
    processDiffMsg opts sa su ta tu d
      = [mkErrorURLs (.errOverWriteNotAllowed d.SecondURL) (some d.Diff)]
  ∧ ∀ u ∈ processDiffMsg opts sa su ta tu d, isCopyTask u = false := by
  have hmain : processDiffMsg opts sa su ta tu d
      = [mkErrorURLs (.errOverWriteNotAllowed d.SecondURL) (some d.Diff)] := by
    simp only [processDiffMsg, hE]
    simp only [hs, ht, Bool.false_eq_true, if_false]
    rcases hd with hd | hd | hd <;> simp only [hd] <;> simp [ho, hf, ha]
  refine ⟨hmain, ?_⟩
  rw [hmain]
  intro u hu
  rw [List.mem_singleton] at hu
  subst hu
  rfl

/-- Witness for C2's amended theorem on a concrete SizeMismatch
message with an empty exclude list. -/
theorem overwrite_unset_error_result_witness :
    (cexSizeMsg.Error = none
      ∧ (cexSizeMsg.Diff = .differInSize ∨ cexSizeMsg.Diff = .differInMetadata
          ∨ cexSizeMsg.Diff = .differInAASourceMTime)
      ∧ matchExcludeOptions [] (trimPfx cexSizeMsg.FirstURL "s/") = false
      ∧ matchExcludeOptions [] (trimPfx cexSizeMsg.SecondURL "t/") = false)
  ∧ (processDiffMsg ⟨false, false, false, false, []⟩ "src" "s/" "tgt" "t/" cexSizeMsg
      = [mkErrorURLs (.errOverWriteNotAllowed cexSizeMsg.SecondURL) (some cexSizeMsg.Diff)]
    ∧ ∀ u ∈ processDiffMsg ⟨false, false, false, false, []⟩ "src" "s/" "tgt" "t/" cexSizeMsg,
        isCopyTask u = false) :=
  ⟨⟨rfl, Or.inl rfl, by decide, by decide⟩,
   overwrite_unset_error_result ⟨false, false, false, false, []⟩ "src" "s/" "tgt" "t/"
     cexSizeMsg rfl (Or.inl rfl) rfl rfl rfl (by decide) (by decide)⟩

/-- C3: an OnlyInTarget event under a policy with remove unset and
dry-run unset produces nothing at all: no Remove task, no error. -/
theorem only_in_target_remove_unset_silent (opts : MirrorOpts) (sa su ta tu : String)
    (d : DiffMessage)
    (hE : d.Error = none) (hd : d.Diff = .differInSecond)
    (hr : opts.isRemove = false) (hf : opts.isFake = false) :
    processDiffMsg opts sa su ta tu d = [] := by
  simp only [processDiffMsg, hE, hd]
  split
  · rfl
  · split
    · rfl
    · simp [hr, hf]

/-- Witness for C3 on a concrete OnlyInTarget message. -/
theorem only_in_target_remove_unset_silent_witness :
    ((⟨"", "t/b", .differInSecond, none, some ⟨"t/b"⟩, none⟩ : DiffMessage).Error = none
      ∧ (⟨"", "t/b", .differInSecond, none, some ⟨"t/b"⟩, none⟩ : DiffMessage).Diff = .differInSecond
      ∧ (⟨false, true, false, false, []⟩ : MirrorOpts).isRemove = false
      ∧ (⟨false, true, false, false, []⟩ : MirrorOpts).isFake = false)
  ∧ processDiffMsg ⟨false, true, false, false, []⟩ "src" "s/" "tgt" "t/"
      ⟨"", "t/b", .differInSecond, none, some ⟨"t/b"⟩, none⟩ = [] :=
  ⟨⟨rfl, rfl, rfl, rfl⟩,
   only_in_target_remove_unset_silent ⟨false, true, false, false, []⟩ "src" "s/" "tgt" "t/"
     ⟨"", "t/b", .differInSecond, none, some ⟨"t/b"⟩, none⟩ rfl rfl rfl rfl⟩

/-- C4: an OnlyInSource event that no exclude pattern drops yields
exactly one message, whatever the overwrite and remove flags say; its
target path is the target root joined with the source-key suffix, and it
is a Copy task whenever the event carries its source entry. -/
theorem only_in_source_always_copy (opts : MirrorOpts) (sa su ta tu : String)
    (d : DiffMessage)
    (hE : d.Error = none) (hd : d.Diff = .differInFirst)
    (hs : matchExcludeOptions opts.excludeOptions (trimPfx d.FirstURL su) = false)
    (ht : matchExcludeOptions opts.excludeOptions (trimPfx d.SecondURL tu) = false) :
    ∃ u : URLs,
      processDiffMsg opts sa su ta tu d = [u]
    ∧ u.SourceContent = d.firstContent
    ∧ u.TargetContent = some { URL := urlJoinPath tu (trimPfx d.FirstURL su) }
    ∧ u.Error = none
    ∧ (d.firstContent.isSome = true → isCopyTask u = true) := by
  refine ⟨{ SourceAlias := sa, SourceContent := d.firstContent, TargetAlias := ta,
            TargetContent := some { URL := urlJoinPath tu (trimPfx d.FirstURL su) },
            Error := none, ErrorCond := none }, ?_, rfl, rfl, rfl, ?_⟩
  · simp only [processDiffMsg, hE, hd]
    simp [hs, ht]
  · intro hc
    simp [isCopyTask, hc]

/-- Witness for C4 on a concrete OnlyInSource message under a policy
with overwrite and remove unset. -/
theorem only_in_source_always_copy_witness :
    ((⟨"s/a", "", .differInFirst, some ⟨"s/a"⟩, none, none⟩ : DiffMessage).Error = none
      ∧ (⟨"s/a", "", .differInFirst, some ⟨"s/a"⟩, none, none⟩ : DiffMessage).Diff = .differInFirst
      ∧ matchExcludeOptions [] (trimPfx "s/a" "s/") = false
      ∧ matchExcludeOptions [] (trimPfx "" "t/") = false)
  ∧ ∃ u : URLs,
      processDiffMsg ⟨false, false, false, false, []⟩ "src" "s/" "tgt" "t/"
        ⟨"s/a", "", .differInFirst, some ⟨"s/a"⟩, none, none⟩ = [u]
    ∧ u.SourceContent = some ⟨"s/a"⟩
    ∧ u.TargetContent = some { URL := urlJoinPath "t/" (trimPfx "s/a" "s/") }
    ∧ u.Error = none
    ∧ ((some (⟨"s/a"⟩ : ClientContent)).isSome = true → isCopyTask u = true) :=
  ⟨⟨rfl, rfl, by decide, by decide⟩,
   only_in_source_always_copy ⟨false, false, false, false, []⟩ "src" "s/" "tgt" "t/"
     ⟨"s/a", "", .differInFirst, some ⟨"s/a"⟩, none, none⟩ rfl rfl (by decide) (by decide)⟩

/-- Exclude options refuting C5 as stated: the glob `*` matches every
suffix, including the empty suffixes of an error-carrying message. -/
def cexExcludeOpts : MirrorOpts :=
  { isFake := false, isOverwrite := false, activeActive := false,
    isRemove := false, excludeOptions := ["*"] }

/-- A diff message carrying a listing error. -/
def cexErrMsg : DiffMessage :=
  { FirstURL := "", SecondURL := "", Diff := .differInUnknown,
    firstContent := none, secondContent := none, Error := some "e" }

/-- C5 counterexample: a message that carries a listing error is
forwarded before the exclude filter runs, so even though its source-key
suffix matches the exclude glob `*`, the orchestrator still emits an
error for it, contradicting the claim as stated. -/
theorem exclude_drop_counterexample :
    matchExcludeOptions cexExcludeOpts.excludeOptions (trimPfx cexErrMsg.FirstURL "s/") = true
  ∧ processDiffMsg cexExcludeOpts "src" "s/" "tgt" "t/" cexErrMsg ≠ [] := by
  decide

/-- C5 as amended: for every diff event that does not carry a listing
error, if the source-key suffix or the target-key suffix matches any
exclude glob, `deltaSourceTarget` emits nothing: no task and no error. -/
theorem exclude_drop_no_output (opts : MirrorOpts) (sa su ta tu : String)
    (d : DiffMessage)
    (hE : d.Error = none)
    (hm : matchExcludeOptions opts.excludeOptions (trimPfx d.FirstURL su) = true
        ∨ matchExcludeOptions opts.excludeOptions (trimPfx d.SecondURL tu) = true) :
    processDiffMsg opts sa su ta tu d = [] := by
  simp only [processDiffMsg, hE]
  rcases hm with hm | hm
  · simp [hm]
  · split
    · rfl
    · simp [hm]

/-- Witness for C5's amended theorem: a SizeMismatch event whose
suffix matches the exclude glob `*`. -/
theorem exclude_drop_no_output_witness :
    ((⟨"s/a", "t/a", .differInSize, none, none, none⟩ : DiffMessage).Error = none
      ∧ (matchExcludeOptions ["*"] (trimPfx "s/a" "s/") = true
          ∨ matchExcludeOptions ["*"] (trimPfx "t/a" "t/") = true))
  ∧ processDiffMsg ⟨false, false, false, false, ["*"]⟩ "src" "s/" "tgt" "t/"
      ⟨"s/a", "t/a", .differInSize, none, none, none⟩ = [] :=
  ⟨⟨rfl, Or.inl (by decide)⟩,
   exclude_drop_no_output ⟨false, false, false, false, ["*"]⟩ "src" "s/" "tgt" "t/"
     ⟨"s/a", "t/a", .differInSize, none, none, none⟩ rfl (Or.inl (by decide))⟩

/-! ## Theorems about the content difference engine -/

theorem od_nil_left (t : OEntry) (ts : List OEntry) :
    objectDifference [] (t :: ts) = .onlyInTarget t :: objectDifference [] ts := by
  simp [objectDifference]

theorem od_nil_right (s : OEntry) (ss : List OEntry) :
    objectDifference (s :: ss) [] = .onlyInSource s :: objectDifference ss [] := by
  simp [objectDifference]

theorem od_lt (s : OEntry) (ss : List OEntry) (t : OEntry) (ts : List OEntry)
    (h : s.key < t.key) :
    objectDifference (s :: ss) (t :: ts)
      = .onlyInSource s :: objectDifference ss (t :: ts) := by
  simp only [objectDifference]
  rw [if_pos h]

theorem od_gt (s : OEntry) (ss : List OEntry) (t : OEntry) (ts : List OEntry)
    (hnlt : ¬ s.key < t.key) (hgt : t.key < s.key) :
    objectDifference (s :: ss) (t :: ts)
      = .onlyInTarget t :: objectDifference (s :: ss) ts := by
  simp only [objectDifference]
  rw [if_neg hnlt, if_pos hgt]

theorem od_eq (s : OEntry) (ss : List OEntry) (t : OEntry) (ts : List OEntry)
    (hnlt : ¬ s.key < t.key) (hngt : ¬ t.key < s.key) :
    objectDifference (s :: ss) (t :: ts)
      = compareEntries s t :: objectDifference ss ts := by
  simp only [objectDifference]
  rw [if_neg hnlt, if_neg hngt]

theorem eventKey_compareEntries (s t : OEntry) :
    eventKey (compareEntries s t) = s.key := by
  unfold compareEntries
  repeat' split
  all_goals rfl

theorem compareEntries_kind (s t : OEntry) :
    isOnlyInSource (compareEntries s t) = false
  ∧ isOnlyInTarget (compareEntries s t) = false
  ∧ isCompareEvent (compareEntries s t) = true := by
  unfold compareEntries
  repeat' split
  all_goals exact ⟨rfl, rfl, rfl⟩

theorem objectDifference_mem_keys (L1 L2 : List OEntry) (k : String) :
    k ∈ (objectDifference L1 L2).map eventKey ↔
      k ∈ L1.map OEntry.key ∨ k ∈ L2.map OEntry.key := by
  induction L1, L2 using objectDifference.induct with
  | case1 => simp [objectDifference]
  | case2 t ts ih =>
    rw [od_nil_left, List.map_cons, List.mem_cons, ih]
    simp [eventKey]
  | case3 s ss ih =>
    rw [od_nil_right, List.map_cons, List.mem_cons, ih]
    simp [eventKey]
  | case4 s ss t ts hlt ih =>
    rw [od_lt s ss t ts hlt, List.map_cons, List.mem_cons, ih]
    simp only [eventKey, List.map_cons, List.mem_cons]
    tauto
  | case5 s ss t ts hnlt hgt ih =>
    rw [od_gt s ss t ts hnlt hgt, List.map_cons, List.mem_cons, ih]
    simp only [eventKey, List.map_cons, List.mem_cons]
    tauto
  | case6 s ss t ts hnlt hngt ih =>
    have heq : s.key = t.key := le_antisymm (not_lt.mp hngt) (not_lt.mp hnlt)
    rw [od_eq s ss t ts hnlt hngt, List.map_cons, List.mem_cons, ih,
      eventKey_compareEntries]
    simp only [List.map_cons, List.mem_cons, ← heq]
    tauto

theorem objectDifference_sorted (L1 L2 : List OEntry) :
    List.Sorted (· < ·) (L1.map OEntry.key) →
    List.Sorted (· < ·) (L2.map OEntry.key) →
    List.Sorted (· < ·) ((objectDifference L1 L2).map eventKey) := by
  induction L1, L2 using objectDifference.induct with
  | case1 =>
    intro _ _
    simp [objectDifference]
  | case2 t ts ih =>
    intro hs1 hs2
    have hs2' := hs2
    rw [List.map_cons, List.sorted_cons] at hs2'
    rw [od_nil_left, List.map_cons, List.sorted_cons]
    refine ⟨?_, ih hs1 hs2'.2⟩
    intro b hb
    rw [objectDifference_mem_keys] at hb
    rcases hb with hb | hb
    · simp at hb
    · exact hs2'.1 b hb
  | case3 s ss ih =>
    intro hs1 hs2
    have hs1' := hs1
    rw [List.map_cons, List.sorted_cons] at hs1'
    rw [od_nil_right, List.map_cons, List.sorted_cons]
    refine ⟨?_, ih hs1'.2 hs2⟩
    intro b hb
    rw [objectDifference_mem_keys] at hb
    rcases hb with hb | hb
    · exact hs1'.1 b hb
    · simp at hb
  | case4 s ss t ts hlt ih =>
    intro hs1 hs2
    have hs1' := hs1
    rw [List.map_cons, List.sorted_cons] at hs1'
    have hs2' := hs2
    rw [List.map_cons, List.sorted_cons] at hs2'
    rw [od_lt s ss t ts hlt, List.map_cons, List.sorted_cons]
    refine ⟨?_, ih hs1'.2 hs2⟩
    intro b hb
    rw [objectDifference_mem_keys] at hb
    rcases hb with hb | hb
    · exact hs1'.1 b hb
    · rw [List.map_cons, List.mem_cons] at hb
      rcases hb with rfl | hb
      · exact hlt
      · exact lt_trans hlt (hs2'.1 b hb)
  | case5 s ss t ts hnlt hgt ih =>
    intro hs1 hs2
    have hs1' := hs1
    rw [List.map_cons, List.sorted_cons] at hs1'
    have hs2' := hs2
    rw [List.map_cons, List.sorted_cons] at hs2'
    rw [od_gt s ss t ts hnlt hgt, List.map_cons, List.sorted_cons]
    refine ⟨?_, ih hs1 hs2'.2⟩
    intro b hb
    rw [objectDifference_mem_keys] at hb
    rcases hb with hb | hb
    · rw [List.map_cons, List.mem_cons] at hb
      rcases hb with rfl | hb
      · exact hgt
      · exact lt_trans hgt (hs1'.1 b hb)
    · exact hs2'.1 b hb
  | case6 s ss t ts hnlt hngt ih =>
    intro hs1 hs2
    have heq : s.key = t.key := le_antisymm (not_lt.mp hngt) (not_lt.mp hnlt)
    have hs1' := hs1
    rw [List.map_cons, List.sorted_cons] at hs1'
    have hs2' := hs2
    rw [List.map_cons, List.sorted_cons] at hs2'
    rw [od_eq s ss t ts hnlt hngt, List.map_cons, List.sorted_cons]
    refine ⟨?_, ih hs1'.2 hs2'.2⟩
    intro b hb
    rw [eventKey_compareEntries]
    rw [objectDifference_mem_keys] at hb
    rcases hb with hb | hb
    · exact hs1'.1 b hb
    · rw [heq]
      exact hs2'.1 b hb

theorem objectDifference_classify (L1 L2 : List OEntry) :
    List.Sorted (· < ·) (L1.map OEntry.key) →
    List.Sorted (· < ·) (L2.map OEntry.key) →
    ∀ e ∈ objectDifference L1 L2,
        (isOnlyInSource e = true →
          eventKey e ∈ L1.map OEntry.key ∧ eventKey e ∉ L2.map OEntry.key)
      ∧ (isOnlyInTarget e = true →
          eventKey e ∉ L1.map OEntry.key ∧ eventKey e ∈ L2.map OEntry.key)
      ∧ (isCompareEvent e = true →
          eventKey e ∈ L1.map OEntry.key ∧ eventKey e ∈ L2.map OEntry.key) := by
  induction L1, L2 using objectDifference.induct with
  | case1 =>
    intro _ _ e he
    simp [objectDifference] at he
  | case2 t ts ih =>
    intro hs1 hs2 e he
    have hs2' := hs2
    rw [List.map_cons, List.sorted_cons] at hs2'
    rw [od_nil_left, List.mem_cons] at he
    rcases he with rfl | he
    · refine ⟨?_, ?_, ?_⟩
      · intro habs
        simp [isOnlyInSource] at habs
      · intro _
        exact ⟨by simp, by simp [eventKey]⟩
      · intro habs
        simp [isCompareEvent, isOnlyInTarget] at habs
    · obtain ⟨hA, hB, hC⟩ := ih hs1 hs2'.2 e he
      refine ⟨?_, ?_, ?_⟩
      · intro h'
        obtain ⟨hmem, _⟩ := hA h'
        simp at hmem
      · intro h'
        obtain ⟨hni, hit⟩ := hB h'
        exact ⟨hni, by simp only [List.map_cons, List.mem_cons]; exact Or.inr hit⟩
      · intro h'
        obtain ⟨hmem, _⟩ := hC h'
        simp at hmem
  | case3 s ss ih =>
    intro hs1 hs2 e he
    have hs1' := hs1
    rw [List.map_cons, List.sorted_cons] at hs1'
    rw [od_nil_right, List.mem_cons] at he
    rcases he with rfl | he
    · refine ⟨?_, ?_, ?_⟩
      · intro _
        exact ⟨by simp [eventKey], by simp⟩
      · intro habs
        simp [isOnlyInTarget] at habs
      · intro habs
        simp [isCompareEvent, isOnlyInSource] at habs
    · obtain ⟨hA, hB, hC⟩ := ih hs1'.2 hs2 e he
      refine ⟨?_, ?_, ?_⟩
      · intro h'
        obtain ⟨his, hnt⟩ := hA h'
        exact ⟨by simp only [List.map_cons, List.mem_cons]; exact Or.inr his, hnt⟩
      · intro h'
        obtain ⟨_, hmem⟩ := hB h'
        simp at hmem
      · intro h'
        obtain ⟨_, hmem⟩ := hC h'
        simp at hmem
  | case4 s ss t ts hlt ih =>
    intro hs1 hs2 e he
    have hs1' := hs1
    rw [List.map_cons, List.sorted_cons] at hs1'
    have hs2' := hs2
    rw [List.map_cons, List.sorted_cons] at hs2'
    have hbound : ∀ b ∈ (t :: ts).map OEntry.key, s.key < b := by
      intro b hb
      rw [List.map_cons, List.mem_cons] at hb
      rcases hb with rfl | hb
      · exact hlt
      · exact lt_trans hlt (hs2'.1 b hb)
    rw [od_lt s ss t ts hlt, List.mem_cons] at he
    rcases he with rfl | he
    · refine ⟨?_, ?_, ?_⟩
      · intro _
        refine ⟨by simp [eventKey], ?_⟩
        intro hmem
        exact lt_irrefl s.key (hbound s.key hmem)
      · intro habs
        simp [isOnlyInTarget] at habs
      · intro habs
        simp [isCompareEvent, isOnlyInSource] at habs
    · obtain ⟨hA, hB, hC⟩ := ih hs1'.2 hs2 e he
      refine ⟨?_, ?_, ?_⟩
      · intro h'
        obtain ⟨his, hnt⟩ := hA h'
        exact ⟨by simp only [List.map_cons, List.mem_cons]; exact Or.inr his, hnt⟩
      · intro h'
        obtain ⟨hns, hit⟩ := hB h'
        refine ⟨?_, hit⟩
        rw [List.map_cons, List.mem_cons]
        rintro (hh | hh)
        · exact lt_irrefl (eventKey e) (hh ▸ hbound (eventKey e) hit)
        · exact hns hh
      · intro h'
        obtain ⟨his, hit⟩ := hC h'
        exact ⟨by simp only [List.map_cons, List.mem_cons]; exact Or.inr his, hit⟩
  | case5 s ss t ts hnlt hgt ih =>
    intro hs1 hs2 e he
    have hs1' := hs1
    rw [List.map_cons, List.sorted_cons] at hs1'
    have hs2' := hs2
    rw [List.map_cons, List.sorted_cons] at hs2'
    have hbound : ∀ b ∈ (s :: ss).map OEntry.key, t.key < b := by
      intro b hb
      rw [List.map_cons, List.mem_cons] at hb
      rcases hb with rfl | hb
      · exact hgt
      · exact lt_trans hgt (hs1'.1 b hb)
    rw [od_gt s ss t ts hnlt hgt, List.mem_cons] at he
    rcases he with rfl | he
    · refine ⟨?_, ?_, ?_⟩
      · intro habs
        simp [isOnlyInSource] at habs
      · intro _
        refine ⟨?_, by simp [eventKey]⟩
        intro hmem
        exact lt_irrefl t.key (hbound t.key hmem)
      · intro habs
        simp [isCompareEvent, isOnlyInTarget] at habs
    · obtain ⟨hA, hB, hC⟩ := ih hs1 hs2'.2 e he
      refine ⟨?_, ?_, ?_⟩
      · intro h'
        obtain ⟨his, hnt⟩ := hA h'
        refine ⟨his, ?_⟩
        rw [List.map_cons, List.mem_cons]
        rintro (hh | hh)
        · exact lt_irrefl (eventKey e) (hh ▸ hbound (eventKey e) his)
        · exact hnt hh
      · intro h'
        obtain ⟨hns, hit⟩ := hB h'
        exact ⟨hns, by simp only [List.map_cons, List.mem_cons]; exact Or.inr hit⟩
      · intro h'
        obtain ⟨his, hit⟩ := hC h'
        exact ⟨his, by simp only [List.map_cons, List.mem_cons]; exact Or.inr hit⟩
  | case6 s ss t ts hnlt hngt ih =>
    intro hs1 hs2 e he
    have heq : s.key = t.key := le_antisymm (not_lt.mp hngt) (not_lt.mp hnlt)
    have hs1' := hs1
    rw [List.map_cons, List.sorted_cons] at hs1'
    have hs2' := hs2
    rw [List.map_cons, List.sorted_cons] at hs2'
    rw [od_eq s ss t ts hnlt hngt, List.mem_cons] at he
    rcases he with rfl | he
    · refine ⟨?_, ?_, ?_⟩
      · intro habs
        rw [(compareEntries_kind s t).1] at habs
        cases habs
      · intro habs
        rw [(compareEntries_kind s t).2.1] at habs
        cases habs
      · intro _
        rw [eventKey_compareEntries]
        constructor
        · simp
        · rw [heq]
          simp
    · obtain ⟨hA, hB, hC⟩ := ih hs1'.2 hs2'.2 e he
      refine ⟨?_, ?_, ?_⟩
      · intro h'
        obtain ⟨his, hnt⟩ := hA h'
        have hk : s.key < eventKey e := hs1'.1 (eventKey e) his
        refine ⟨by simp only [List.map_cons, List.mem_cons]; exact Or.inr his, ?_⟩
        rw [List.map_cons, List.mem_cons]
        rintro (hh | hh)
        · rw [hh, ← heq] at hk
          exact lt_irrefl s.key hk
        · exact hnt hh
      · intro h'
        obtain ⟨hns, hit⟩ := hB h'
        have hk : t.key < eventKey e := hs2'.1 (eventKey e) hit
        refine ⟨?_, by simp only [List.map_cons, List.mem_cons]; exact Or.inr hit⟩
        rw [List.map_cons, List.mem_cons]
        rintro (hh | hh)
        · rw [hh, heq] at hk
          exact lt_irrefl t.key hk
        · exact hns hh
      · intro h'
        obtain ⟨his, hit⟩ := hC h'
        exact ⟨by simp only [List.map_cons, List.mem_cons]; exact Or.inr his,
          by simp only [List.map_cons, List.mem_cons]; exact Or.inr hit⟩

/-- C1: for listings with unique keys in ascending order, the merge
emits its events in ascending key order with no duplicate keys, the
emitted keys are exactly the union of the two key sets (hence exactly
one event per distinct key), an OnlyInSource event's key lies only in
the source listing, an OnlyInTarget event's key only in the target
listing, and a comparison event's key in both. -/
theorem objectDifference_one_event_per_key (L1 L2 : List OEntry)
    (h1 : List.Sorted (· < ·) (L1.map OEntry.key))
    (h2 : List.Sorted (· < ·) (L2.map OEntry.key)) :
    List.Sorted (· < ·) ((objectDifference L1 L2).map eventKey)
  ∧ ((objectDifference L1 L2).map eventKey).Nodup
  ∧ (∀ k : String, k ∈ (objectDifference L1 L2).map eventKey ↔
        k ∈ L1.map OEntry.key ∨ k ∈ L2.map OEntry.key)
  ∧ (∀ e ∈ objectDifference L1 L2,
        (isOnlyInSource e = true →
          eventKey e ∈ L1.map OEntry.key ∧ eventKey e ∉ L2.map OEntry.key)
      ∧ (isOnlyInTarget e = true →
          eventKey e ∉ L1.map OEntry.key ∧ eventKey e ∈ L2.map OEntry.key)
      ∧ (isCompareEvent e = true →
          eventKey e ∈ L1.map OEntry.key ∧ eventKey e ∈ L2.map OEntry.key)) :=
  have hs := objectDifference_sorted L1 L2 h1 h2
  ⟨hs, hs.nodup, fun k => objectDifference_mem_keys L1 L2 k,
    objectDifference_classify L1 L2 h1 h2⟩

/-- Source listing `{a, b}` for the C1 witness. -/
def wL1 : List OEntry :=
  [{ key := "a", isDir := false, size := 1, etag := "", metadata := [], mtime := 0 },
   { key := "b", isDir := false, size := 2, etag := "", metadata := [], mtime := 0 }]

/-- Target listing `{b, c}` for the C1 witness. -/
def wL2 : List OEntry :=
  [{ key := "b", isDir := false, size := 2, etag := "", metadata := [], mtime := 0 },
   { key := "c", isDir := false, size := 3, etag := "", metadata := [], mtime := 0 }]

/-- Witness for C1 at the concrete listings `{a, b}` and `{b, c}`. -/
theorem objectDifference_one_event_per_key_witness :
    (List.Sorted (· < ·) (wL1.map OEntry.key)
      ∧ List.Sorted (· < ·) (wL2.map OEntry.key))
  ∧ (List.Sorted (· < ·) ((objectDifference wL1 wL2).map eventKey)
      ∧ ((objectDifference wL1 wL2).map eventKey).Nodup
      ∧ (∀ k : String, k ∈ (objectDifference wL1 wL2).map eventKey ↔
            k ∈ wL1.map OEntry.key ∨ k ∈ wL2.map OEntry.key)
      ∧ (∀ e ∈ objectDifference wL1 wL2,
            (isOnlyInSource e = true →
              eventKey e ∈ wL1.map OEntry.key ∧ eventKey e ∉ wL2.map OEntry.key)
          ∧ (isOnlyInTarget e = true →
              eventKey e ∉ wL1.map OEntry.key ∧ eventKey e ∈ wL2.map OEntry.key)
          ∧ (isCompareEvent e = true →
              eventKey e ∈ wL1.map OEntry.key ∧ eventKey e ∈ wL2.map OEntry.key))) := by
  have hw1 : List.Sorted (· < ·) (wL1.map OEntry.key) := by
    simp [wL1, List.sorted_cons, String.lt_iff_toList_lt]
    decide
  have hw2 : List.Sorted (· < ·) (wL2.map OEntry.key) := by
    simp [wL2, List.sorted_cons, String.lt_iff_toList_lt]
    decide
  exact ⟨⟨hw1, hw2⟩, objectDifference_one_event_per_key wL1 wL2 hw1 hw2⟩

/-! ## Theorems about the admission gate -/

theorem gateStep_preserves_mutex (barrier : Nat → Bool) (s s' : Nat → Phase)
    (hstep : GateStep barrier s s')
    (hinv : ∀ i j, i ≠ j → holdsGate (s i) = true → holdsGate (s j) = true →
      barrier i = false) :
    ∀ i j, i ≠ j → holdsGate (s' i) = true → holdsGate (s' j) = true →
      barrier i = false := by
  cases hstep with
  | acquireShared i0 hq hb hw =>
    intro i j hij hi hj
    by_cases hii : i = i0
    · subst hii
      exact hb
    · rw [Function.update_noteq hii] at hi
      exact hw i hi
  | acquireExclusive i0 hq hb hw =>
    intro i j hij hi hj
    by_cases hii : i = i0
    · have hjj : j ≠ i0 := fun hh => hij (hii.trans hh.symm)
      rw [Function.update_noteq hjj] at hj
      rw [hw j] at hj
      cases hj
    · rw [Function.update_noteq hii] at hi
      rw [hw i] at hi
      cases hi
  | startExec i0 hh =>
    intro i j hij hi hj
    apply hinv i j hij
    · by_cases hii : i = i0
      · subst hii
        rw [hh]
        rfl
      · rw [Function.update_noteq hii] at hi
        exact hi
    · by_cases hjj : j = i0
      · subst hjj
        rw [hh]
        rfl
      · rw [Function.update_noteq hjj] at hj
        exact hj
  | finishExec i0 he =>
    intro i j hij hi hj
    apply hinv i j hij
    · by_cases hii : i = i0
      · subst hii
        rw [Function.update_same] at hi
        cases hi
      · rw [Function.update_noteq hii] at hi
        exact hi
    · by_cases hjj : j = i0
      · subst hjj
        rw [Function.update_same] at hj
        cases hj
      · rw [Function.update_noteq hjj] at hj
        exact hj

theorem gate_mutex_invariant (barrier : Nat → Bool) (s : Nat → Phase)
    (h : GateReachable barrier s) :
    ∀ i j, i ≠ j → holdsGate (s i) = true → holdsGate (s j) = true →
      barrier i = false := by
  induction h with
  | refl =>
    intro i j hij hi hj
    rw [show holdsGate (initGate i) = false from rfl] at hi
    cases hi
  | tail hsteps hstep ih =>
    exact gateStep_preserves_mutex barrier _ _ hstep ih

/-- C6: in every reachable state of a run, a barrier task is never
executing at the same time as any other task: if two tasks are both
executing and at least one of them is a barrier task, they are the same
task.  All shared holds drain before the barrier task's exclusive hold
is granted, and no hold is granted while it is outstanding. -/
theorem barrier_task_no_overlap (barrier : Nat → Bool) (s : Nat → Phase)
    (h : GateReachable barrier s) (i j : Nat)
    (hbar : barrier i = true ∨ barrier j = true)
    (hi : s i = .executing) (hj : s j = .executing) : i = j := by
  by_contra hij
  have hgi : holdsGate (s i) = true := by rw [hi]; rfl
  have hgj : holdsGate (s j) = true := by rw [hj]; rfl
  rcases hbar with hb | hb
  · rw [gate_mutex_invariant barrier s h i j hij hgi hgj] at hb
    cases hb
  · rw [gate_mutex_invariant barrier s h j i (fun hh => hij hh.symm) hgj hgi] at hb
    cases hb

/-- Witness for C6: task 0 is a barrier task executing in a concrete
reachable state, and the theorem applied at that state with i = j = 0. -/
theorem barrier_task_no_overlap_witness :
    (GateReachable (fun i => i == 0)
        (Function.update (Function.update initGate 0 .held) 0 .executing)
      ∧ ((fun i : Nat => i == 0) 0 = true ∨ (fun i : Nat => i == 0) 0 = true)
      ∧ Function.update (Function.update initGate 0 .held) 0 .executing 0 = .executing)
  ∧ (0 : Nat) = 0 := by
  have h1 : GateStep (fun i => i == 0) initGate (Function.update initGate 0 .held) :=
    GateStep.acquireExclusive initGate 0 rfl rfl (fun j => rfl)
  have h2 : GateStep (fun i => i == 0) (Function.update initGate 0 .held)
      (Function.update (Function.update initGate 0 .held) 0 .executing) :=
    GateStep.startExec (Function.update initGate 0 .held) 0 (by simp)
  have hreach : GateReachable (fun i => i == 0)
      (Function.update (Function.update initGate 0 .held) 0 .executing) :=
    Relation.ReflTransGen.tail (Relation.ReflTransGen.tail Relation.ReflTransGen.refl h1) h2
  have hexec : Function.update (Function.update initGate 0 .held) 0 .executing 0
      = Phase.executing := by simp
  exact ⟨⟨hreach, Or.inl rfl, hexec⟩,
    barrier_task_no_overlap (fun i => i == 0) _ hreach 0 0 (Or.inl rfl) hexec hexec⟩

end Mc
